import Mathlib

/-!
Shallow embedding of `normalize.py`: a data-cleaning utility that applies a
declarative set of column-scoped find/replace rules to a table of string
cells.  Python's `re` module is modelled by a small regular-expression AST,
a pattern-string parser (`compile`, modelling `re.compile`) and a
backtracking matcher (`mrun`) that follows Python's leftmost,
first-alternative-first, greedy-quantifier preference order.  Python
exceptions that can escape the modelled functions (IndexError from
`match.group(1)` and `find[0]`, KeyError from dictionary subscripts) are
modelled by `Option`/`none`.
-/

namespace Normalize

/-- A YAML `find` value is either a single string or a list of strings.
The distinction is observable: Python code that iterates over a string
iterates over its characters. -/
inductive FindVal where
  | str (s : String)
  | strs (l : List String)
deriving DecidableEq

/-- The characters of Python's `string.punctuation`. -/
def pythonPunctuation : List Char :=
  ['!', '"', '#', '$', '%', '&', '\x27', '(', ')', '*', '+', ',', '-', '.',
   '/', ':', ';', '<', '=', '>', '?', '@', '[', '\\', ']', '^', '_', '\x60',
   '\x7b', '|', '\x7d', '~']

/-- Membership test in `string.punctuation`. -/
def isPunct (c : Char) : Bool := decide (c ∈ pythonPunctuation)

/-- Characters stripped by Python's `str.strip()` (whitespace). -/
def pySpace (c : Char) : Bool :=
  c = ' ' || c = '\t' || c = '\n' || c = '\r' || c = '\x0b' || c = '\x0c'

/-- Python `str.strip()`: remove leading and trailing whitespace. -/
def pyStrip (s : String) : String :=
  String.mk (((s.data.dropWhile pySpace).reverse.dropWhile pySpace).reverse)

/-- Source `sanitize_input` on a single string:
`re.sub(f'[{re.escape(string.punctuation)}]', '', value)` removes every
punctuation character. -/
def sanitizeStr (s : String) : String :=
  String.mk (s.data.filter (fun c => !isPunct c))

/-- Source `sanitize_input`: lists are sanitized element-wise, individual
strings directly. -/
def sanitize_input : FindVal → FindVal
  | .str s => .str (sanitizeStr s)
  | .strs l => .strs (l.map sanitizeStr)

/-- Iterating a `find` value with Python `for f in find`: a list yields its
elements, a string yields its characters as one-character strings. -/
def FindVal.toStrings : FindVal → List String
  | .str s => s.data.map (fun c => String.mk [c])
  | .strs l => l

/-- Normalization done by `apply_substitution_pattern`:
`if not isinstance(find, list): find = [find]`. -/
def normFind : FindVal → List String
  | .str s => [s]
  | .strs l => l

/-- Python `str.replace('*', '.*')`, used by the wildcard matcher before
`re.search`. -/
def starRepl (s : String) : String :=
  String.mk (s.data.flatMap (fun c => if c = '*' then ['.', '*'] else [c]))

/-! ## Regular expressions: AST -/

/-- Predefined character classes reachable from escapes. -/
inductive PTag where
  | digit
  | word
  | space
deriving DecidableEq

/-- An item of a bracket character class. -/
inductive ClsItem where
  | single (c : Char)
  | range (a b : Char)
deriving DecidableEq

/-- Abstract syntax of the regular-expression subset modelled, mirroring
what `re.compile` builds for the patterns the program deals in: literals,
`.`, `\d`/`\w`/`\s`, bracket classes, concatenation, alternation, greedy
and lazy `*` (with `+`/`?` desugared), numbered capture groups and the
anchors `^`/`$`. -/
inductive RE where
  | eps
  | lit (c : Char)
  | anyc
  | pcls (t : PTag)
  | cls (neg : Bool) (items : List ClsItem)
  | concat (a b : RE)
  | alt (a b : RE)
  | star (greedy : Bool) (r : RE)
  | group (n : Nat) (r : RE)
  | bol
  | eol
deriving DecidableEq

/-! ## Regular expressions: parser (model of `re.compile`)

The parser is written with an explicit fuel argument so that all
definitions are structurally recursive; `compile` supplies ample fuel.
A `none` result models `re.error`.  Unsupported Python syntax
(`{m,n}` repeats, `(?...)` extensions, backreferences, escapes of
letters other than `d`, `w`, `s`, `n`, `t`, `r`) is likewise rejected. -/

/-- Resolve a top-level escape `\c`. -/
def escAtom (c : Char) : Option RE :=
  if c = 'd' then some (.pcls .digit)
  else if c = 'w' then some (.pcls .word)
  else if c = 's' then some (.pcls .space)
  else if c = 'n' then some (.lit '\n')
  else if c = 't' then some (.lit '\t')
  else if c = 'r' then some (.lit '\r')
  else if isPunct c then some (.lit c)
  else none

/-- Resolve an escape `\c` inside a bracket class. -/
def escClsChar (c : Char) : Option Char :=
  if c = 'n' then some '\n'
  else if c = 't' then some '\t'
  else if c = 'r' then some '\r'
  else if isPunct c then some c
  else none

/-- Parse the items of a bracket class, after the opening `[` (and after an
optional `^` and leading literal `]` handled by the caller), up to the
closing `]`. -/
def parseClsItems : List Char → Option (List ClsItem × List Char)
  | [] => none
  | ']' :: rest => some ([], rest)
  | '\\' :: c :: rest =>
    match escClsChar c with
    | none => none
    | some c' => (parseClsItems rest).map (fun p => (.single c' :: p.1, p.2))
  | a :: '-' :: ']' :: rest => some ([.single a, .single '-'], rest)
  | a :: '-' :: b :: rest =>
    (parseClsItems rest).map (fun p => (.range a b :: p.1, p.2))
  | a :: rest => (parseClsItems rest).map (fun p => (.single a :: p.1, p.2))

/-- Parse a bracket class after the opening `[`: optional negation, a
leading `]` taken literally, then items. -/
def parseCls (cs : List Char) : Option (RE × List Char) :=
  let (neg, cs1) : Bool × List Char :=
    match cs with
    | '^' :: rest => (true, rest)
    | _ => (false, cs)
  match cs1 with
  | ']' :: rest =>
    (parseClsItems rest).map (fun p => (.cls neg (.single ']' :: p.1), p.2))
  | _ => (parseClsItems cs1).map (fun p => (.cls neg p.1, p.2))

/-- Fold a list of sequential atoms into a concatenation. -/
def catList : List RE → RE
  | [] => .eps
  | e :: es => es.foldl .concat e

/-- Attach a quantifier (`*`, `+`, `?`, with optional lazy `?` suffix) to a
parsed atom.  A second quantifier in a row is rejected later because the
quantifier character fails to parse as an atom, as in Python. -/
def applyQuant (e : RE) : List Char → Nat → RE × List Char × Nat
  | [], n => (e, [], n)
  | q :: rest2, n =>
    if q = '*' then
      match rest2 with
      | '?' :: r3 => (.star false e, r3, n)
      | _ => (.star true e, rest2, n)
    else if q = '+' then
      match rest2 with
      | '?' :: r3 => (.concat e (.star false e), r3, n)
      | _ => (.concat e (.star true e), rest2, n)
    else if q = '?' then
      match rest2 with
      | '?' :: r3 => (.alt .eps e, r3, n)
      | _ => (.alt e .eps, rest2, n)
    else (e, q :: rest2, n)

/-- Does the concatenation loop stop here (end of input, `)`, or `|`)? -/
def stopChar : List Char → Bool
  | [] => true
  | c :: _ => c = ')' || c = '|'

mutual

/-- Parse an alternation (`|`-separated concatenations).  `n` is the
number of capture groups opened so far. -/
def parseAlt : Nat → List Char → Nat → Option (RE × List Char × Nat)
  | 0, _, _ => none
  | f + 1, cs, n =>
    match parseCatLoop f cs n with
    | none => none
    | some (es, rest, n') =>
      match rest with
      | '|' :: rest2 =>
        (parseAlt f rest2 n').map (fun p => (.alt (catList es) p.1, p.2))
      | _ => some (catList es, rest, n')
termination_by structural f => f

/-- Parse a (possibly empty) sequence of quantified atoms. -/
def parseCatLoop : Nat → List Char → Nat →
    Option (List RE × List Char × Nat)
  | 0, _, _ => none
  | f + 1, cs, n =>
    if stopChar cs then some ([], cs, n)
    else
      match parseRep f cs n with
      | none => none
      | some (e, rest, n') =>
        (parseCatLoop f rest n').map (fun p => (e :: p.1, p.2))
termination_by structural f => f

/-- Parse one atom together with an optional quantifier. -/
def parseRep : Nat → List Char → Nat → Option (RE × List Char × Nat)
  | 0, _, _ => none
  | f + 1, cs, n =>
    match parseAtom f cs n with
    | none => none
    | some (e, rest, n') => some (applyQuant e rest n')
termination_by structural f => f

/-- Parse one atom: a group, class, anchor, escape, `.` or a literal. -/
def parseAtom : Nat → List Char → Nat → Option (RE × List Char × Nat)
  | 0, _, _ => none
  | f + 1, cs, n =>
    match cs with
    | [] => none
    | c :: rest =>
      if c = '(' then
        match parseAlt f rest (n + 1) with
        | some (e, ')' :: r2, n2) => some (.group (n + 1) e, r2, n2)
        | _ => none
      else if c = ')' then none
      else if c = '|' then none
      else if c = '*' then none
      else if c = '+' then none
      else if c = '?' then none
      else if c = '.' then some (.anyc, rest, n)
      else if c = '^' then some (.bol, rest, n)
      else if c = '$' then some (.eol, rest, n)
      else if c = '[' then
        (parseCls rest).map (fun p => (p.1, p.2, n))
      else if c = '\x7b' then none
      else if c = '\\' then
        match rest with
        | [] => none
        | e :: rest2 => (escAtom e).map (fun a => (a, rest2, n))
      else some (.lit c, rest, n)
termination_by structural f => f

end

/-- Model of `re.compile`: parse a whole pattern string, returning the AST
and the number of capture groups, or `none` for `re.error`. -/
def compile (s : String) : Option (RE × Nat) :=
  match parseAlt (4 * s.length + 16) s.data 0 with
  | some (e, [], n) => some (e, n)
  | _ => none

/-! ## Regular expressions: matcher

`mrun` enumerates, in Python's backtracking preference order (leftmost,
first alternative first, greedy quantifiers longest first), the ways a
regex can match a prefix of the remaining input.  Each result is the
remaining suffix paired with the capture list; the head of the list is the
match Python reports.  `total` is the length of the whole subject string,
used by the anchors (`^` matches only at position 0; `$` at the end, or
just before a final newline). -/

/-- Capture lists: most recent capture first, looked up by group number. -/
abbrev Caps := List (Nat × String)

/-- Case-comparison of a pattern character against an input character,
optionally case-insensitive (`re.IGNORECASE` lowercases both sides). -/
def charMatch (ci : Bool) (a b : Char) : Bool :=
  if ci then a.toLower = b.toLower else a = b

/-- Semantics of the predefined classes. -/
def ptagMatch : PTag → Char → Bool
  | .digit, c => c.isDigit
  | .word, c => c.isAlphanum || c = '_'
  | .space, c => pySpace c

/-- Semantics of one bracket-class item (case-insensitive ranges test the
character and both of its case foldings). -/
def clsItemMatch (ci : Bool) (it : ClsItem) (c : Char) : Bool :=
  match it with
  | .single a => charMatch ci a c
  | .range a b =>
    (a ≤ c && c ≤ b) ||
      (ci && ((a ≤ c.toLower && c.toLower ≤ b) ||
              (a ≤ c.toUpper && c.toUpper ≤ b)))

/-- Iterate the body of a quantifier.  Each iteration must consume at
least one character (Python breaks out of a repetition on an empty match),
so `rest.length` iterations of fuel are always enough. -/
def mstar (greedy : Bool) (step : List Char → Caps → List (List Char × Caps)) :
    Nat → List Char → Caps → List (List Char × Caps)
  | 0, rest, caps => [(rest, caps)]
  | f + 1, rest, caps =>
    let deeper :=
      ((step rest caps).filter (fun p => p.1.length < rest.length)).flatMap
        (fun p => mstar greedy step f p.1 p.2)
    if greedy then deeper ++ [(rest, caps)] else (rest, caps) :: deeper

/-- All ways `r` matches a prefix of `rest`, in preference order. -/
def mrun (ci : Bool) (total : Nat) : RE → List Char → Caps →
    List (List Char × Caps)
  | .eps, rest, caps => [(rest, caps)]
  | .lit c, rest, caps =>
    match rest with
    | [] => []
    | d :: t => if charMatch ci c d then [(t, caps)] else []
  | .anyc, rest, caps =>
    match rest with
    | [] => []
    | d :: t => if d = '\n' then [] else [(t, caps)]
  | .pcls tg, rest, caps =>
    match rest with
    | [] => []
    | d :: t => if ptagMatch tg d then [(t, caps)] else []
  | .cls neg items, rest, caps =>
    match rest with
    | [] => []
    | d :: t =>
      if (items.any (fun it => clsItemMatch ci it d)) != neg
      then [(t, caps)] else []
  | .concat a b, rest, caps =>
    (mrun ci total a rest caps).flatMap (fun p => mrun ci total b p.1 p.2)
  | .alt a b, rest, caps =>
    mrun ci total a rest caps ++ mrun ci total b rest caps
  | .star g r, rest, caps =>
    mstar g (fun rs cp => mrun ci total r rs cp) rest.length rest caps
  | .group n r, rest, caps =>
    (mrun ci total r rest caps).map
      (fun p => (p.1, (n, String.mk (rest.take (rest.length - p.1.length))) :: p.2))
  | .bol, rest, caps => if rest.length = total then [(rest, caps)] else []
  | .eol, rest, caps =>
    if rest.isEmpty || rest = ['\n'] then [(rest, caps)] else []

/-- The match Python would report at exactly this position, if any. -/
def tryMatchAt (ci : Bool) (total : Nat) (r : RE) (rest : List Char) :
    Option (List Char × Caps) :=
  (mrun ci total r rest []).head?

/-- Model of `re.search` scanning: try each start position left to right. -/
def searchFrom (ci : Bool) (total : Nat) (r : RE) : List Char → Bool
  | [] => !(mrun ci total r [] []).isEmpty
  | c :: t =>
    !(mrun ci total r (c :: t) []).isEmpty || searchFrom ci total r t

/-- Model of `re.search(r, x, flags) is not None`. -/
def searchS (r : RE) (x : String) : Bool :=
  searchFrom true x.data.length r x.data

/-- Model of Python `str.format` restricted to the ``{text}``
placeholder: every occurrence of the six-character placeholder is replaced
by `v`.  Fuel-based recursion; the caller supplies `length + 1`. -/
def formatTextGo (v : String) : Nat → List Char → List Char
  | 0, _ => []
  | _, [] => []
  | f + 1, c :: rest =>
    if (c :: rest).take 6 = ['\x7b', 't', 'e', 'x', 't', '\x7d'] then
      v.data ++ formatTextGo v f ((c :: rest).drop 6)
    else
      c :: formatTextGo v f rest

/-- Model of `replace.format(text=v)` for templates using only the
``{text}`` placeholder. -/
def formatText (tmpl v : String) : String :=
  String.mk (formatTextGo v (tmpl.data.length + 1) tmpl.data)

/-- Model of `re.sub(compiled, lambda m: replace.format(text=...), x)`:
scan left to right, replacing each leftmost match; an empty match emits the
replacement and copies one character.  `ng` is the number of capture groups
of the pattern; when it is zero and a match occurs, `match.group(1)` raises
IndexError (modelled by `none`).  Otherwise the placeholder is filled with
`m.group(1) if m.group(1) else ""`, i.e. the captured text or the empty
string when group 1 did not participate or captured nothing. -/
def subScan (r : RE) (ng : Nat) (tmpl : String) (total : Nat) :
    Nat → List Char → Option String
  | 0, _ => none
  | f + 1, rest =>
    match tryMatchAt true total r rest with
    | some (rest', caps) =>
      if ng = 0 then none
      else
        let repl := formatText tmpl ((caps.lookup 1).getD "")
        let consumed := rest.length - rest'.length
        if consumed = 0 then
          match rest with
          | [] => some repl
          | c :: t =>
            (subScan r ng tmpl total f t).map
              (fun out => repl ++ String.mk [c] ++ out)
        else
          (subScan r ng tmpl total f (rest.drop consumed)).map
            (fun out => repl ++ out)
    | none =>
      match rest with
      | [] => some ""
      | c :: t =>
        (subScan r ng tmpl total f t).map (fun out => String.mk [c] ++ out)

/-- Total counterpart of `subScan`, defined for patterns that do have a
capture group (no IndexError possible). -/
def subScanP (r : RE) (tmpl : String) (total : Nat) :
    Nat → List Char → String
  | 0, _ => ""
  | f + 1, rest =>
    match tryMatchAt true total r rest with
    | some (rest', caps) =>
      let repl := formatText tmpl ((caps.lookup 1).getD "")
      let consumed := rest.length - rest'.length
      if consumed = 0 then
        match rest with
        | [] => repl
        | c :: t => repl ++ String.mk [c] ++ subScanP r tmpl total f t
      else repl ++ subScanP r tmpl total f (rest.drop consumed)
    | none =>
      match rest with
      | [] => ""
      | c :: t => String.mk [c] ++ subScanP r tmpl total f t

/-- One cell of the regex matcher: `re.sub` over the cell's string form. -/
def cellRegexSub (r : RE) (ng : Nat) (tmpl : String) (x : String) :
    Option String :=
  subScan r ng tmpl x.data.length (x.data.length + 1) x.data

/-- Total counterpart of `cellRegexSub` for patterns with a group. -/
def cellRegexSubP (r : RE) (tmpl : String) (x : String) : String :=
  subScanP r tmpl x.data.length (x.data.length + 1) x.data

/-! ## Data model

A table is an ordered list of named columns of string cells (the source's
DataFrame after `fillna('')` and `astype(str)`).  A rule document is a list
of rules; field presence in the YAML dictionaries is modelled by `Option`
(absent key = `none`). -/

/-- One column of string cells. -/
abbrev Column := List String

/-- A table: named columns in order. -/
structure Table where
  cols : List (String × Column)
deriving DecidableEq

/-- One find/replace/type triple of a rule; `none` fields model missing
dictionary keys. -/
structure SubPattern where
  find : Option FindVal
  replace : Option String
  type : Option String
deriving DecidableEq

/-- One column rule of the document. -/
structure Rule where
  column : Option String
  patterns : Option (List SubPattern)
deriving DecidableEq

/-- Read a column by name (`dataframe[column]`). -/
def getCol (df : Table) (c : String) : Option Column :=
  df.cols.lookup c

/-- Write a column by name (`dataframe[column] = v`). -/
def setCol (df : Table) (c : String) (v : Column) : Table :=
  ⟨df.cols.map (fun p => if p.1 = c then (p.1, v) else p)⟩

/-! ## The three pattern matchers -/

/-- Source `apply_substitution_pattern`: `find` is normalized to a list,
then each cell is compared, stripped of surrounding whitespace, against
`find[0]`; on equality the cell becomes the empty string.  `replace` is
normalized to a list but never used.  When the normalized `find` list is
empty, `find[0]` raises IndexError in each cell (`none`); a row-less
column raises nothing because the lambda never runs. -/
def apply_substitution_pattern (col : Column) (find : FindVal)
    (_replace : String) : Option Column :=
  col.mapM (fun x =>
    match normFind find with
    | [] => none
    | f :: _ => some (if pyStrip x = f then "" else x))

/-- Lazy `any(re.search(f.replace('*', '.*'), x, flags=re.IGNORECASE) for f
in find)`: patterns after the first successful one are never compiled; an
uncompilable pattern raises `re.error` (`none`, uncaught in the source). -/
def anyWildSearch : List String → String → Option Bool
  | [], _ => some false
  | f :: fs, x =>
    match compile (starRepl f) with
    | none => none
    | some (r, _) => if searchS r x then some true else anyWildSearch fs x

/-- Source `apply_wildcard_pattern`: sanitize `find` and `replace`, then
replace each cell by the sanitized `replace` whenever any sanitized find
entry, with `*` turned into `.*` after sanitization, matches the cell as a
case-insensitive regex. -/
def apply_wildcard_pattern (col : Column) (find : FindVal)
    (replace : String) : Option Column :=
  let find' := sanitize_input find
  let replace' := sanitizeStr replace
  col.mapM (fun x =>
    (anyWildSearch find'.toStrings x).map (fun b => if b then replace' else x))

/-- One pass of the regex matcher for one find pattern: compile it with
`re.IGNORECASE`; `re.error` is caught in the source (log and continue), so
a failed compile leaves the column unchanged.  A successful compile runs
`re.sub` over every cell; a cell raising IndexError (pattern without a
capture group) propagates. -/
def applyOnePass (p : String) (replace : String) (col : Column) :
    Option Column :=
  match compile p with
  | none => some col
  | some (r, ng) => col.mapM (cellRegexSub r ng replace)

/-- Source `apply_regex_pattern`: iterate the find patterns in order, each
pass transforming the column produced by the previous one. -/
def apply_regex_pattern (col : Column) (find : FindVal)
    (replace : String) : Option Column :=
  go find.toStrings col
where
  /-- Fold of `applyOnePass` over the find patterns. -/
  go : List String → Column → Option Column
    | [], c => some c
    | p :: ps, c => (applyOnePass p replace c) >>= go ps

/-! ## Validation -/

/-- Message for a rule missing `column` or `patterns` (rule index is
0-based here, printed 1-based as in the source). -/
def ruleMissingMsg (i : Nat) : String :=
  "Pattern " ++ toString (i + 1) ++
    ": Each pattern must have \x27column\x27 and \x27patterns\x27 fields."

/-- Message for a sub-pattern missing `find`, `replace` or `type`. -/
def spMissingMsg (i : Nat) : String :=
  "Pattern " ++ toString (i + 1) ++
    ": Each column pattern must have \x27find\x27, \x27replace\x27, and \x27type\x27 fields."

/-- Message for an uncompilable regex find pattern. -/
def invalidRegexMsg (i : Nat) (col : String) (fp : String) : String :=
  "Pattern " ++ toString (i + 1) ++ ", Column \x27" ++ col ++
    "\x27: Invalid regular expression \x27" ++ fp ++ "\x27"

/-- The find patterns a `type: regex` sub-pattern is validated against:
`column_pattern.get('find', [])`, iterated with `for` (a string value
yields its characters). -/
def findIter : Option FindVal → List String
  | none => []
  | some fv => fv.toStrings

/-- Validate the find patterns of one regex sub-pattern, threading the
error list and the cache of successfully compiled pattern strings.  When a
pattern fails to compile and the rule has no `column` field, building the
error message raises KeyError (`none`). -/
def validateFinds (i : Nat) (colOpt : Option String) :
    List String → List String → List String →
    Option (List String × List String)
  | [], errs, cache => some (errs, cache)
  | fp :: fps, errs, cache =>
    if fp ∈ cache then validateFinds i colOpt fps errs cache
    else
      match compile fp with
      | some _ => validateFinds i colOpt fps errs (cache ++ [fp])
      | none =>
        match colOpt with
        | none => none
        | some col =>
          validateFinds i colOpt fps (errs ++ [invalidRegexMsg i col fp]) cache

/-- Validate the sub-patterns of one rule. -/
def validateSubPatterns (i : Nat) (colOpt : Option String) :
    List SubPattern → List String → List String →
    Option (List String × List String)
  | [], errs, cache => some (errs, cache)
  | sp :: sps, errs, cache =>
    let errs1 :=
      if sp.find = none ∨ sp.replace = none ∨ sp.type = none then
        errs ++ [spMissingMsg i]
      else errs
    if sp.type = some "regex" then
      (validateFinds i colOpt (findIter sp.find) errs1 cache).bind
        (fun p => validateSubPatterns i colOpt sps p.1 p.2)
    else validateSubPatterns i colOpt sps errs1 cache

/-- Iterate `validate_patterns` over the enumerated rules. -/
def validateRules : Nat → List Rule → List String → List String →
    Option (List String)
  | _, [], errs, _ => some errs
  | i, r :: rs, errs, cache =>
    let errs1 :=
      if r.column = none ∨ r.patterns = none then errs ++ [ruleMissingMsg i]
      else errs
    (validateSubPatterns i r.column (r.patterns.getD []) errs1 cache).bind
      (fun p => validateRules (i + 1) rs p.1 p.2)

/-- Source `validate_patterns`: collect one error per rule missing
`column`/`patterns`, per sub-pattern missing `find`/`replace`/`type`, and
per regex find string that fails to compile; `none` models the uncaught
KeyError raised when the invalid-regex message needs a missing `column`. -/
def validate_patterns (ps : List Rule) : Option (List String) :=
  validateRules 0 ps [] []

/-- Source `read_patterns_file`, after the external YAML load: `None`
(empty or unreadable document) yields `[]`; any validation error yields
`[]` (fail-closed); an exception escaping `validate_patterns` is caught by
the surrounding `except Exception` handler and also yields `[]`. -/
def read_patterns_file (raw : Option (List Rule)) : List Rule :=
  match raw with
  | none => []
  | some ps =>
    match validate_patterns ps with
    | none => []
    | some errs => if errs.isEmpty then ps else []

/-! ## Engine -/

/-- Dispatch one sub-pattern on a column.  The source reads
`replace_pattern['find']` and `['replace']` before inspecting the type, so
a missing field raises KeyError (`none`) even for an unknown type; the
type itself is read with `.get` and an unknown or missing type falls
through the mapping, leaving the column unchanged. -/
def applyOneSubPattern (col : Column) (sp : SubPattern) : Option Column :=
  match sp.find with
  | none => none
  | some f =>
    match sp.replace with
    | none => none
    | some rep =>
      match sp.type with
      | none => some col
      | some t =>
        if t = "substitution" then apply_substitution_pattern col f rep
        else if t = "wildcard" then apply_wildcard_pattern col f rep
        else if t = "regex" then apply_regex_pattern col f rep
        else some col

/-- Apply the sub-patterns of one rule in order; each one reads the column
produced by the previous one (the source writes the column back after
every sub-pattern and reads it again on the next iteration). -/
def applyPats : Column → List SubPattern → Option Column
  | col, [] => some col
  | col, sp :: sps => (applyOneSubPattern col sp) >>= fun c => applyPats c sps

/-- Source `replace_with_patterns`: for each rule, read `column` and
`patterns` (KeyError when missing), skip the rule when the column is not
in the table, otherwise transform the column and write it back. -/
def replace_with_patterns : Table → List Rule → Option Table
  | df, [] => some df
  | df, r :: rs =>
    match r.column with
    | none => none
    | some c =>
      match r.patterns with
      | none => none
      | some sps =>
        match getCol df c with
        | none => replace_with_patterns df rs
        | some colData =>
          (applyPats colData sps).bind
            (fun newCol => replace_with_patterns (setCol df c newCol) rs)

/-- Source `main`, after the external loads: `df` is the loaded table
(`none` = load failure), `raw` the parsed rule document.  The outer
`Option` models an exception escaping `replace_with_patterns` (the source
has no handler there).  A missing table or an empty rule list returns the
sentinel pair `(None, None)`. -/
def main (df : Option Table) (raw : Option (List Rule)) :
    Option (Option Table × Option (List Rule)) :=
  match df with
  | none => some (none, none)
  | some d =>
    let patterns := read_patterns_file raw
    if patterns.isEmpty then some (none, none)
    else
      (replace_with_patterns d patterns).map
        (fun d2 => (some d2, some patterns))

/-- Matching test the wildcard matcher performs on one (already sanitized)
find entry: compile it after the `*` to `.*` rewrite and search the cell
case-insensitively.  The `none` branch is unreachable for sanitized
entries (`compile_nonpunct`). -/
def wildMatches (f x : String) : Bool :=
  match compile (starRepl f) with
  | some (r, _) => searchS r x
  | none => false

/-- The AST `compile` produces for the pattern of the worked regex
example, with its one capture group. -/
def kgRE : RE :=
  .concat
    (.concat
      (.concat
        (.concat .bol
          (.group 1 (.concat (.pcls .digit) (.star true (.pcls .digit)))))
        (.lit 'k'))
      (.lit 'g'))
    .eol

/-! ## Specification mirror of the validation error list

These definitions follow the specification's words for comparison with
`validate_patterns` (refinement): one error per rule missing `column` or
`patterns`, one per sub-pattern missing `find`, `replace` or `type`, and,
for `type: regex`, one per find string that fails to compile, identified
by rule index and column name.  The cache of compiled patterns in the
source is invisible here because only successful compiles are cached and
they contribute no errors. -/

/-- Spec: the regex errors of one `type: regex` sub-pattern.  A rule with
no `column` contributes none (the amended claim: the source raises
KeyError there instead). -/
def specFindErrs (i : Nat) (colOpt : Option String) (fps : List String) :
    List String :=
  match colOpt with
  | none => []
  | some col =>
    fps.filterMap (fun fp =>
      if compile fp = none then some (invalidRegexMsg i col fp) else none)

/-- Spec: the errors of one sub-pattern. -/
def specSubErrs (i : Nat) (colOpt : Option String) (sp : SubPattern) :
    List String :=
  (if sp.find = none ∨ sp.replace = none ∨ sp.type = none
   then [spMissingMsg i] else []) ++
  (if sp.type = some "regex" then specFindErrs i colOpt (findIter sp.find)
   else [])

/-- Spec: the errors of one rule. -/
def specRuleErrs (i : Nat) (r : Rule) : List String :=
  (if r.column = none ∨ r.patterns = none then [ruleMissingMsg i] else []) ++
  (r.patterns.getD []).flatMap (specSubErrs i r.column)

/-- Spec: all errors of the enumerated rules from index `i` on. -/
def specErrorsFrom : Nat → List Rule → List String
  | _, [] => []
  | i, r :: rs => specRuleErrs i r ++ specErrorsFrom (i + 1) rs

/-- Spec: the full error list of a rule document. -/
def specErrors (ps : List Rule) : List String := specErrorsFrom 0 ps

/-- A rule on which `validate_patterns` cannot raise: if it lacks
`column`, none of its regex find strings fails to compile. -/
def ruleSafe (r : Rule) : Prop :=
  r.column = none →
    ∀ sp ∈ r.patterns.getD [], sp.type = some "regex" →
      ∀ fp ∈ findIter sp.find, (compile fp).isSome

instance ruleSafeDecidable (r : Rule) : Decidable (ruleSafe r) := by
  unfold ruleSafe
  infer_instance

/-! ## Supporting lemmas -/

theorem data_append (s t : String) : (s ++ t).data = s.data ++ t.data := rfl

theorem mapM_eq_map {α β : Type} (g : α → Option β) (h : α → β)
    (l : List α) (H : ∀ x ∈ l, g x = some (h x)) :
    l.mapM g = some (l.map h) := by
  induction l with
  | nil => rfl
  | cons a t ih =>
    have ha := H a (by simp)
    have ht := ih (fun x hx => H x (by simp [hx]))
    rw [List.mapM_cons, ha, ht]
    rfl

theorem not_mem_punct_of_isPunct_false {c : Char} (h : isPunct c = false) :
    c ∉ pythonPunctuation := by
  simpa [isPunct] using h

theorem ne_of_isPunct_false {c d : Char} (h : isPunct c = false)
    (hd : d ∈ pythonPunctuation) : c ≠ d := by
  intro he
  exact not_mem_punct_of_isPunct_false h (he ▸ hd)

theorem parseAtom_nonpunct (f n : Nat) (c : Char) (rest : List Char)
    (h : isPunct c = false) :
    parseAtom (f + 1) (c :: rest) n = some (.lit c, rest, n) := by
  have h1 : c ≠ '(' := ne_of_isPunct_false h (by decide)
  have h2 : c ≠ ')' := ne_of_isPunct_false h (by decide)
  have h3 : c ≠ '|' := ne_of_isPunct_false h (by decide)
  have h4 : c ≠ '*' := ne_of_isPunct_false h (by decide)
  have h5 : c ≠ '+' := ne_of_isPunct_false h (by decide)
  have h6 : c ≠ '?' := ne_of_isPunct_false h (by decide)
  have h7 : c ≠ '.' := ne_of_isPunct_false h (by decide)
  have h8 : c ≠ '^' := ne_of_isPunct_false h (by decide)
  have h9 : c ≠ '$' := ne_of_isPunct_false h (by decide)
  have h10 : c ≠ '[' := ne_of_isPunct_false h (by decide)
  have h11 : c ≠ '\x7b' := ne_of_isPunct_false h (by decide)
  have h12 : c ≠ '\\' := ne_of_isPunct_false h (by decide)
  simp only [parseAtom, if_neg h1, if_neg h2, if_neg h3, if_neg h4,
    if_neg h5, if_neg h6, if_neg h7, if_neg h8, if_neg h9, if_neg h10,
    if_neg h11, if_neg h12]

theorem applyQuant_nil (e : RE) (n : Nat) : applyQuant e [] n = (e, [], n) := rfl

theorem applyQuant_nonpunct (e : RE) (q : Char) (r2 : List Char) (n : Nat)
    (h : isPunct q = false) : applyQuant e (q :: r2) n = (e, q :: r2, n) := by
  have h4 : q ≠ '*' := ne_of_isPunct_false h (by decide)
  have h5 : q ≠ '+' := ne_of_isPunct_false h (by decide)
  have h6 : q ≠ '?' := ne_of_isPunct_false h (by decide)
  simp only [applyQuant, if_neg h4, if_neg h5, if_neg h6]

theorem stopChar_nonpunct (c : Char) (rest : List Char)
    (h : isPunct c = false) : stopChar (c :: rest) = false := by
  have h2 : c ≠ ')' := ne_of_isPunct_false h (by decide)
  have h3 : c ≠ '|' := ne_of_isPunct_false h (by decide)
  simp [stopChar, h2, h3]

theorem parseCatLoop_nonpunct (cs : List Char)
    (h : ∀ c ∈ cs, isPunct c = false) :
    ∀ f, 2 * cs.length + 1 ≤ f →
      ∀ n, parseCatLoop f cs n = some (cs.map .lit, [], n) := by
  induction cs with
  | nil =>
    intro f hf n
    obtain ⟨f1, rfl⟩ : ∃ k, f = k + 1 := ⟨f - 1, by omega⟩
    simp [parseCatLoop, stopChar]
  | cons c rest ih =>
    intro f hf n
    obtain ⟨f3, rfl⟩ : ∃ k, f = k + 3 := ⟨f - 3, by simp at hf; omega⟩
    have hc : isPunct c = false := h c (by simp)
    have hrest : ∀ d ∈ rest, isPunct d = false :=
      fun d hd => h d (by simp [hd])
    have hquant : applyQuant (.lit c) rest n = (.lit c, rest, n) := by
      cases rest with
      | nil => exact applyQuant_nil _ _
      | cons d r2 => exact applyQuant_nonpunct _ d r2 n (hrest d (by simp))
    have hstep : parseCatLoop (f3 + 2) rest n = some (rest.map .lit, [], n) := by
      apply ih hrest
      simp at hf
      omega
    show parseCatLoop (f3 + 2 + 1) (c :: rest) n = _
    rw [parseCatLoop]
    rw [stopChar_nonpunct c rest hc]
    simp only [Bool.false_eq_true, if_false]
    rw [parseRep]
    rw [parseAtom_nonpunct (f3 + 0) n c rest hc]
    simp only [hquant, hstep, Option.map_some]
    rfl

theorem compile_nonpunct (s : String)
    (h : ∀ c ∈ s.data, isPunct c = false) :
    compile s = some (catList (s.data.map .lit), 0) := by
  rw [compile]
  have hlen : 2 * s.data.length + 1 ≤ 4 * s.length + 15 := by
    have : s.length = s.data.length := rfl
    omega
  rw [parseAlt]
  rw [parseCatLoop_nonpunct s.data h (4 * s.length + 15) hlen 0]

theorem sanitizeStr_nonpunct (s : String) :
    ∀ c ∈ (sanitizeStr s).data, isPunct c = false := by
  intro c hc
  simp only [sanitizeStr] at hc
  have := List.of_mem_filter hc
  simpa using this

theorem flatMapStar_id (l : List Char) (h : '*' ∉ l) :
    l.flatMap (fun c => if c = '*' then ['.', '*'] else [c]) = l := by
  induction l with
  | nil => rfl
  | cons c t ih =>
    simp only [List.mem_cons, not_or] at h
    rw [List.flatMap_cons, if_neg (fun he => h.1 he.symm), ih h.2]
    rfl

theorem starRepl_eq_of_no_star (s : String) (h : '*' ∉ s.data) :
    starRepl s = s := by
  rw [starRepl, flatMapStar_id s.data h]

theorem starRepl_sanitized (s : String) :
    starRepl (sanitizeStr s) = sanitizeStr s := by
  apply starRepl_eq_of_no_star
  intro hmem
  have := sanitizeStr_nonpunct s '*' hmem
  simp [isPunct, pythonPunctuation] at this

theorem compile_sanitized_isSome (s : String) :
    (compile (starRepl (sanitizeStr s))).isSome := by
  rw [starRepl_sanitized, compile_nonpunct _ (sanitizeStr_nonpunct s)]
  rfl

theorem searchFrom_lit (ci : Bool) (total : Nat) (c : Char) :
    ∀ cs : List Char,
      searchFrom ci total (.lit c) cs = cs.any (fun d => charMatch ci c d) := by
  intro cs
  induction cs with
  | nil => rfl
  | cons d t ih =>
    cases hm : charMatch ci c d with
    | true => simp [searchFrom, mrun, hm]
    | false => simp [searchFrom, mrun, hm, ih]

theorem anyWildSearch_eq (x : String) :
    ∀ fs : List String, (∀ f ∈ fs, (compile (starRepl f)).isSome) →
      anyWildSearch fs x = some (fs.any (fun f => wildMatches f x)) := by
  intro fs
  induction fs with
  | nil => intro _; rfl
  | cons f fs ih =>
    intro H
    have hf := H f (by simp)
    cases hc : compile (starRepl f) with
    | none => rw [hc] at hf; simp at hf
    | some p =>
      obtain ⟨r, ng⟩ := p
      have ht := ih (fun g hg => H g (by simp [hg]))
      cases hs : searchS r x with
      | true => simp [anyWildSearch, hc, wildMatches, hs]
      | false => simp [anyWildSearch, hc, wildMatches, hs, ht]

theorem subScan_succ (r : RE) (ng : Nat) (tmpl : String) (total f : Nat)
    (rest : List Char) :
    subScan r ng tmpl total (f + 1) rest =
      match tryMatchAt true total r rest with
      | some (rest', caps) =>
        if ng = 0 then none
        else
          let repl := formatText tmpl ((caps.lookup 1).getD "")
          let consumed := rest.length - rest'.length
          if consumed = 0 then
            match rest with
            | [] => some repl
            | c :: t =>
              (subScan r ng tmpl total f t).map
                (fun out => repl ++ String.mk [c] ++ out)
          else
            (subScan r ng tmpl total f (rest.drop consumed)).map
              (fun out => repl ++ out)
      | none =>
        match rest with
        | [] => some ""
        | c :: t =>
          (subScan r ng tmpl total f t).map
            (fun out => String.mk [c] ++ out) := rfl

theorem subScanP_succ (r : RE) (tmpl : String) (total f : Nat)
    (rest : List Char) :
    subScanP r tmpl total (f + 1) rest =
      match tryMatchAt true total r rest with
      | some (rest', caps) =>
        let repl := formatText tmpl ((caps.lookup 1).getD "")
        let consumed := rest.length - rest'.length
        if consumed = 0 then
          match rest with
          | [] => repl
          | c :: t => repl ++ String.mk [c] ++ subScanP r tmpl total f t
        else repl ++ subScanP r tmpl total f (rest.drop consumed)
      | none =>
        match rest with
        | [] => ""
        | c :: t => String.mk [c] ++ subScanP r tmpl total f t := rfl

theorem subScan_eq_subScanP (r : RE) (ng : Nat) (tmpl : String)
    (total : Nat) (hng : ng ≠ 0) :
    ∀ f rest, rest.length + 1 ≤ f →
      subScan r ng tmpl total f rest = some (subScanP r tmpl total f rest) := by
  intro f
  induction f with
  | zero => intro rest h; omega
  | succ f ih =>
    intro rest h
    rw [subScan_succ, subScanP_succ]
    cases htm : tryMatchAt true total r rest with
    | none =>
      cases rest with
      | nil => rfl
      | cons c t =>
        have ht := ih t (by simp at h; omega)
        simp [ht]
    | some p =>
      obtain ⟨rest', caps⟩ := p
      simp only [if_neg hng]
      by_cases hcon : rest.length - rest'.length = 0
      · simp only [if_pos hcon]
        cases rest with
        | nil => rfl
        | cons c t =>
          have ht := ih t (by simp at h; omega)
          simp [ht]
      · simp only [if_neg hcon]
        have hd : (rest.drop (rest.length - rest'.length)).length + 1 ≤ f := by
          rw [List.length_drop]
          omega
        have ht := ih _ hd
        simp [ht]

theorem cellRegexSub_eq (r : RE) (ng : Nat) (tmpl x : String)
    (hng : ng ≠ 0) :
    cellRegexSub r ng tmpl x = some (cellRegexSubP r tmpl x) :=
  subScan_eq_subScanP r ng tmpl x.data.length hng (x.data.length + 1)
    x.data (by omega)

theorem go_skip (rep bad : String) (h : compile bad = none)
    (ys : List String) :
    ∀ xs col, apply_regex_pattern.go rep (xs ++ bad :: ys) col =
      apply_regex_pattern.go rep (xs ++ ys) col := by
  intro xs
  induction xs with
  | nil =>
    intro col
    simp [apply_regex_pattern.go, applyOnePass, h]
  | cons p ps ih =>
    intro col
    rw [List.cons_append, List.cons_append, apply_regex_pattern.go,
      apply_regex_pattern.go]
    cases ho : applyOnePass p rep col with
    | none => rfl
    | some c => simp [ho, ih]

theorem replace_empty_id (df : Table) : replace_with_patterns df [] = some df :=
  rfl

theorem any_of_map {α β : Type} (l : List α) (f : α → β) (p : β → Bool) :
    (l.map f).any p = l.any (fun a => p (f a)) := by
  induction l with
  | nil => rfl
  | cons a t ih => simp [List.any_cons, ih]

theorem any_congr {α : Type} (l : List α) (p q : α → Bool)
    (h : ∀ a ∈ l, p a = q a) : l.any p = l.any q := by
  induction l with
  | nil => rfl
  | cons a t ih =>
    simp only [List.any_cons, h a (by simp),
      ih (fun b hb => h b (by simp [hb]))]

theorem compile_singleton (c : Char) (h : isPunct c = false) :
    compile (String.mk [c]) = some (.lit c, 0) := by
  rw [compile_nonpunct]
  · rfl
  · intro d hd
    simp only [List.mem_singleton] at hd
    subst hd
    exact h

theorem wildMatches_singleton (c : Char) (x : String)
    (h : isPunct c = false) :
    wildMatches (String.mk [c]) x = x.data.any (fun d => charMatch true c d) := by
  have hstar : starRepl (String.mk [c]) = String.mk [c] := by
    apply starRepl_eq_of_no_star
    intro hm
    simp only [List.mem_singleton] at hm
    subst hm
    exact absurd h (by decide)
  simp only [wildMatches, hstar, compile_singleton c h]
  exact searchFrom_lit true x.data.length c x.data

theorem specFindErrs_cons_ok (i : Nat) (colOpt : Option String)
    (fp : String) (fps : List String) (h : (compile fp).isSome) :
    specFindErrs i colOpt (fp :: fps) = specFindErrs i colOpt fps := by
  cases colOpt with
  | none => rfl
  | some col =>
    have hne : ¬ compile fp = none := by
      intro he
      rw [he] at h
      simp at h
    simp [specFindErrs, List.filterMap_cons, if_neg hne]

theorem specFindErrs_cons_bad (i : Nat) (col : String)
    (fp : String) (fps : List String) (h : compile fp = none) :
    specFindErrs i (some col) (fp :: fps) =
      invalidRegexMsg i col fp :: specFindErrs i (some col) fps := by
  simp [specFindErrs, List.filterMap_cons, h]

theorem validateFinds_cons (i : Nat) (colOpt : Option String) (fp : String)
    (fps errs cache : List String) :
    validateFinds i colOpt (fp :: fps) errs cache =
      if fp ∈ cache then validateFinds i colOpt fps errs cache
      else
        match compile fp with
        | some _ => validateFinds i colOpt fps errs (cache ++ [fp])
        | none =>
          match colOpt with
          | none => none
          | some col =>
            validateFinds i colOpt fps (errs ++ [invalidRegexMsg i col fp])
              cache := rfl

theorem validateSubPatterns_cons (i : Nat) (colOpt : Option String)
    (sp : SubPattern) (sps : List SubPattern) (errs cache : List String) :
    validateSubPatterns i colOpt (sp :: sps) errs cache =
      (let errs1 :=
        if sp.find = none ∨ sp.replace = none ∨ sp.type = none then
          errs ++ [spMissingMsg i]
        else errs
      if sp.type = some "regex" then
        (validateFinds i colOpt (findIter sp.find) errs1 cache).bind
          (fun p => validateSubPatterns i colOpt sps p.1 p.2)
      else validateSubPatterns i colOpt sps errs1 cache) := rfl

theorem validateRules_cons (i : Nat) (r : Rule) (rs : List Rule)
    (errs cache : List String) :
    validateRules i (r :: rs) errs cache =
      (let errs1 :=
        if r.column = none ∨ r.patterns = none then errs ++ [ruleMissingMsg i]
        else errs
      (validateSubPatterns i r.column (r.patterns.getD []) errs1 cache).bind
        (fun p => validateRules (i + 1) rs p.1 p.2)) := rfl

theorem validateFinds_eq (i : Nat) (colOpt : Option String) :
    ∀ (fps : List String) (errs cache : List String),
      (∀ x ∈ cache, (compile x).isSome) →
      (colOpt = none → ∀ fp ∈ fps, (compile fp).isSome) →
      ∃ cache', validateFinds i colOpt fps errs cache =
          some (errs ++ specFindErrs i colOpt fps, cache') ∧
        ∀ x ∈ cache', (compile x).isSome := by
  intro fps
  induction fps with
  | nil =>
    intro errs cache hc _
    refine ⟨cache, ?_, hc⟩
    cases colOpt <;> simp [validateFinds, specFindErrs]
  | cons fp fps ih =>
    intro errs cache hc hn
    by_cases hmem : fp ∈ cache
    · have hfp : (compile fp).isSome := hc fp hmem
      obtain ⟨cache', heq, hc'⟩ :=
        ih errs cache hc (fun h g hg => hn h g (List.mem_cons_of_mem _ hg))
      refine ⟨cache', ?_, hc'⟩
      rw [validateFinds_cons, if_pos hmem,
        specFindErrs_cons_ok i colOpt fp fps hfp]
      exact heq
    · cases hcomp : compile fp with
      | some q =>
        have hc2 : ∀ x ∈ cache ++ [fp], (compile x).isSome := by
          intro x hx
          rcases List.mem_append.mp hx with h | h
          · exact hc x h
          · simp only [List.mem_singleton] at h
            subst h
            simp [hcomp]
        obtain ⟨cache', heq, hc'⟩ :=
          ih errs (cache ++ [fp]) hc2
            (fun h g hg => hn h g (List.mem_cons_of_mem _ hg))
        refine ⟨cache', ?_, hc'⟩
        rw [validateFinds_cons, if_neg hmem]
        simp only [hcomp]
        rw [specFindErrs_cons_ok i colOpt fp fps (by simp [hcomp])]
        exact heq
      | none =>
        cases colOpt with
        | none =>
          exfalso
          have := hn rfl fp (by simp)
          rw [hcomp] at this
          simp at this
        | some col =>
          obtain ⟨cache', heq, hc'⟩ :=
            ih (errs ++ [invalidRegexMsg i col fp]) cache hc
              (fun h => absurd h (by simp))
          refine ⟨cache', ?_, hc'⟩
          rw [validateFinds_cons, if_neg hmem]
          simp only [hcomp]
          rw [specFindErrs_cons_bad i col fp fps hcomp, heq]
          simp [List.append_assoc]

theorem validateSubPatterns_eq (i : Nat) (colOpt : Option String) :
    ∀ (sps : List SubPattern) (errs cache : List String),
      (∀ x ∈ cache, (compile x).isSome) →
      (colOpt = none → ∀ sp ∈ sps, sp.type = some "regex" →
        ∀ fp ∈ findIter sp.find, (compile fp).isSome) →
      ∃ cache', validateSubPatterns i colOpt sps errs cache =
          some (errs ++ sps.flatMap (specSubErrs i colOpt), cache') ∧
        ∀ x ∈ cache', (compile x).isSome := by
  intro sps
  induction sps with
  | nil =>
    intro errs cache hc _
    exact ⟨cache, by simp [validateSubPatterns], hc⟩
  | cons sp sps ih =>
    intro errs cache hc hn
    have hn' : colOpt = none → ∀ q ∈ sps, q.type = some "regex" →
        ∀ fp ∈ findIter q.find, (compile fp).isSome :=
      fun h q hq => hn h q (List.mem_cons_of_mem _ hq)
    by_cases hreg : sp.type = some "regex"
    · have hfinds : colOpt = none → ∀ fp ∈ findIter sp.find,
          (compile fp).isSome :=
        fun h => hn h sp (by simp) hreg
      by_cases hmiss : sp.find = none ∨ sp.replace = none ∨ sp.type = none
      · obtain ⟨cache1, heq1, hc1⟩ :=
          validateFinds_eq i colOpt (findIter sp.find)
            (errs ++ [spMissingMsg i]) cache hc hfinds
        obtain ⟨cache', heq2, hc'⟩ :=
          ih (errs ++ [spMissingMsg i] ++ specFindErrs i colOpt (findIter sp.find))
            cache1 hc1 hn'
        refine ⟨cache', ?_, hc'⟩
        rw [validateSubPatterns_cons]
        simp only [if_pos hmiss, if_pos hreg]
        rw [heq1]
        simp only [Option.some_bind]
        rw [heq2]
        simp [specSubErrs, if_pos hmiss, if_pos hreg, List.append_assoc]
      · obtain ⟨cache1, heq1, hc1⟩ :=
          validateFinds_eq i colOpt (findIter sp.find) errs cache hc hfinds
        obtain ⟨cache', heq2, hc'⟩ :=
          ih (errs ++ specFindErrs i colOpt (findIter sp.find)) cache1 hc1 hn'
        refine ⟨cache', ?_, hc'⟩
        rw [validateSubPatterns_cons]
        simp only [if_neg hmiss, if_pos hreg]
        rw [heq1]
        simp only [Option.some_bind]
        rw [heq2]
        simp [specSubErrs, if_neg hmiss, if_pos hreg, List.append_assoc]
    · by_cases hmiss : sp.find = none ∨ sp.replace = none ∨ sp.type = none
      · obtain ⟨cache', heq, hc'⟩ :=
          ih (errs ++ [spMissingMsg i]) cache hc hn'
        refine ⟨cache', ?_, hc'⟩
        rw [validateSubPatterns_cons]
        simp only [if_pos hmiss, if_neg hreg]
        rw [heq]
        simp [specSubErrs, if_pos hmiss, if_neg hreg, List.append_assoc]
      · obtain ⟨cache', heq, hc'⟩ := ih errs cache hc hn'
        refine ⟨cache', ?_, hc'⟩
        rw [validateSubPatterns_cons]
        simp only [if_neg hmiss, if_neg hreg]
        rw [heq]
        simp [specSubErrs, if_neg hmiss, if_neg hreg]

theorem validateRules_eq :
    ∀ (rs : List Rule) (i : Nat) (errs cache : List String),
      (∀ x ∈ cache, (compile x).isSome) →
      (∀ r ∈ rs, ruleSafe r) →
      validateRules i rs errs cache = some (errs ++ specErrorsFrom i rs) := by
  intro rs
  induction rs with
  | nil =>
    intro i errs cache _ _
    simp [validateRules, specErrorsFrom]
  | cons r rs ih =>
    intro i errs cache hc hs
    have hsafe : ruleSafe r := hs r (by simp)
    have hs' : ∀ q ∈ rs, ruleSafe q := fun q hq => hs q (by simp [hq])
    by_cases hmiss : r.column = none ∨ r.patterns = none
    · obtain ⟨cache', heq, hc'⟩ :=
        validateSubPatterns_eq i r.column (r.patterns.getD [])
          (errs ++ [ruleMissingMsg i]) cache hc hsafe
      rw [validateRules_cons]
      simp only [if_pos hmiss]
      rw [heq]
      simp only [Option.some_bind]
      rw [ih (i + 1) _ cache' hc' hs']
      simp [specErrorsFrom, specRuleErrs, if_pos hmiss, List.append_assoc]
    · obtain ⟨cache', heq, hc'⟩ :=
        validateSubPatterns_eq i r.column (r.patterns.getD []) errs cache hc
          hsafe
      rw [validateRules_cons]
      simp only [if_neg hmiss]
      rw [heq]
      simp only [Option.some_bind]
      rw [ih (i + 1) _ cache' hc' hs']
      simp [specErrorsFrom, specRuleErrs, if_neg hmiss, List.append_assoc]

/-! ## Claim theorems -/

/-- C1 counterexample: the claim says that for every find pattern the
``{text}`` placeholder is filled with the first capture group if
present and with the empty string otherwise, which for
`find=["kg"]`, `replace="`{text}` kilograms"` and cell `"5kg"` would
produce `some ["5 kilograms"]`; the code instead evaluates
`match.group(1)` on a pattern with no capture group, raising an uncaught
IndexError (modelled by `none`). -/
theorem claim_C1_counterexample :
    apply_regex_pattern ["5kg"] (FindVal.strs ["kg"]) "{text} kilograms" ≠
      some ["5 kilograms"] := by decide

/-- C1 (amended): the find patterns are applied in order, case-
insensitively, each pass operating on the output of the previous pass
(first conjunct); for a pattern that compiles with at least one capture
group, the pass rewrites every cell by the substitution scanner, which
replaces every match with the template, ``{text}`` filled with the
first capture group when it captured a nonempty string and the empty
string otherwise, and raises no error (second conjunct); a matching
pattern with no capture group instead raises an uncaught IndexError
(see the counterexample); the worked example behaves as claimed (third
conjunct). -/
theorem claim_C1 : ∀ (p : String) (ps : List String) (rep : String)
    (col : Column),
    (apply_regex_pattern col (.strs (p :: ps)) rep =
      (applyOnePass p rep col).bind
        (fun c => apply_regex_pattern c (.strs ps) rep)) ∧
    (∀ r ng, compile p = some (r, ng) → ng ≠ 0 →
      applyOnePass p rep col = some (col.map (cellRegexSubP r rep))) ∧
    apply_regex_pattern ["5kg", "5lb"] (.strs ["^(\\d+)kg$"])
      "{text} kilograms" = some ["5 kilograms", "5lb"] := by
  intro p ps rep col
  refine ⟨rfl, ?_, by decide⟩
  intro r ng hc hng
  simp only [applyOnePass, hc]
  exact mapM_eq_map _ _ _ (fun x _ => cellRegexSub_eq r ng rep x hng)

/-- C1 witness: the amended theorem applied to the worked example
pattern, which compiles to `kgRE` with one capture group. -/
theorem claim_C1_witness :
    applyOnePass "^(\\d+)kg$" "{text} kilograms" ["5kg", "5lb"] =
      some ((["5kg", "5lb"] : Column).map
        (cellRegexSubP kgRE "{text} kilograms")) :=
  (claim_C1 "^(\\d+)kg$" [] "{text} kilograms" ["5kg", "5lb"]).2.1
    kgRE 1 (by decide) (by decide)

/-- C2: the wildcard matcher strips punctuation from every find entry and
from the replace value, then replaces a cell entirely by the sanitized
replace value exactly when some sanitized find entry, with `*` rewritten
to `.*` only after sanitization, matches the cell as a case-insensitive
regular expression; in particular `find=["foo*"]` sanitizes to `"foo"`
and turns the cell `"food"` into `"bar"`. -/
theorem claim_C2 : ∀ (l : List String) (rep : String) (col : Column),
    (apply_wildcard_pattern col (.strs l) rep =
      some (col.map (fun x =>
        if (l.map sanitizeStr).any (fun f => wildMatches f x)
        then sanitizeStr rep else x))) ∧
    sanitizeStr "foo*" = "foo" ∧
    apply_wildcard_pattern ["food"] (.strs ["foo*"]) "bar" = some ["bar"] := by
  intro l rep col
  refine ⟨?_, by decide, by decide⟩
  simp only [apply_wildcard_pattern]
  apply mapM_eq_map
  intro x hx
  have hall : ∀ f ∈ l.map sanitizeStr, (compile (starRepl f)).isSome := by
    intro f hf
    obtain ⟨g, hg, rfl⟩ := List.mem_map.mp hf
    exact compile_sanitized_isSome g
  have hts : (sanitize_input (FindVal.strs l)).toStrings = l.map sanitizeStr :=
    rfl
  rw [hts, anyWildSearch_eq x _ hall]
  rfl

/-- C3: the substitution matcher replaces a cell by the empty string
exactly when the cell stripped of surrounding whitespace equals the first
element of the normalized find list, leaves every other cell unchanged,
and ignores the replace argument entirely; in particular `"  N/A  "`
becomes `""` while `"N/A only"` is unchanged. -/
theorem claim_C3 : ∀ (find : FindVal) (f : String) (fs : List String)
    (rep : String) (col : Column), normFind find = f :: fs →
    (apply_substitution_pattern col find rep =
      some (col.map (fun x => if pyStrip x = f then "" else x))) ∧
    (∀ rep', apply_substitution_pattern col find rep' =
      apply_substitution_pattern col find rep) ∧
    apply_substitution_pattern ["  N/A  ", "N/A only"] (.strs ["N/A"])
      "IGNORED" = some ["", "N/A only"] := by
  intro find f fs rep col h
  refine ⟨?_, fun rep' => rfl, by decide⟩
  simp only [apply_substitution_pattern]
  apply mapM_eq_map
  intro x hx
  rw [h]

/-- C3 witness: the theorem applied at the worked example. -/
theorem claim_C3_witness :
    apply_substitution_pattern ["  N/A  "] (FindVal.strs ["N/A"]) "r" =
      some ((["  N/A  "] : Column).map
        (fun x => if pyStrip x = "N/A" then "" else x)) :=
  (claim_C3 (.strs ["N/A"]) "N/A" [] "r" ["  N/A  "] rfl).1

/-- C4: whenever validation returns at least one error,
`read_patterns_file` delivers the empty rule list, and applying that
empty list to any table is the identity. -/
theorem claim_C4 : ∀ (ps : List Rule) (errs : List String) (df : Table),
    validate_patterns ps = some errs → errs ≠ [] →
    read_patterns_file (some ps) = [] ∧
    replace_with_patterns df (read_patterns_file (some ps)) = some df := by
  intro ps errs df hv hne
  cases errs with
  | nil => exact absurd rfl hne
  | cons e t =>
    have hr : read_patterns_file (some ps) = [] := by
      simp [read_patterns_file, hv]
    refine ⟨hr, ?_⟩
    rw [hr]
    exact replace_empty_id df

/-- C4 witness: a rule missing both fields produces one validation error,
so the delivered rule set is empty and application is the identity. -/
theorem claim_C4_witness :
    read_patterns_file (some [⟨none, some []⟩]) = [] ∧
    replace_with_patterns ⟨[("a", ["x"])]⟩
      (read_patterns_file (some [⟨none, some []⟩])) = some ⟨[("a", ["x"])]⟩ :=
  claim_C4 [⟨none, some []⟩] [ruleMissingMsg 0] ⟨[("a", ["x"])]⟩
    (by decide) (by decide)

/-- C5 counterexample: the claim says `validate_patterns` examines every
raw rule list and returns the collected errors; on a rule that is missing
`column` and whose `type: regex` sub-pattern has an uncompilable find
string, the claim predicts a returned error list (containing the
missing-fields error for rule 1), but the source raises an uncaught
KeyError while building the invalid-regex message with `pattern['column']`
(modelled by `none`). -/
theorem claim_C5_counterexample :
    validate_patterns
      [⟨none, some [⟨some (.strs ["("]), some "x", some "regex"⟩]⟩] =
      none := by decide

/-- C5 (amended): provided that every rule missing `column` has no
uncompilable regex find string, `validate_patterns` examines every rule
and every sub-pattern, collecting all errors rather than stopping at the
first: one error per rule missing `column` or `patterns`, one per
sub-pattern missing `find`, `replace` or `type`, and one per regex find
string that fails to compile (first conjunct, via the specification
mirror `specErrors`); without that proviso it raises KeyError (see the
counterexample).  Each regex error message contains the 1-based rule
index, the column name and the invalid pattern string, and each
missing-fields message contains the 1-based rule index (remaining
conjuncts). -/
theorem claim_C5 : ∀ ps : List Rule, (∀ r ∈ ps, ruleSafe r) →
    validate_patterns ps = some (specErrors ps) ∧
    (∀ (i : Nat) (col fp : String),
      List.IsInfix (toString (i + 1)).data (invalidRegexMsg i col fp).data ∧
      List.IsInfix col.data (invalidRegexMsg i col fp).data ∧
      List.IsInfix fp.data (invalidRegexMsg i col fp).data) ∧
    (∀ i : Nat, List.IsInfix (toString (i + 1)).data (ruleMissingMsg i).data) ∧
    (∀ i : Nat, List.IsInfix (toString (i + 1)).data (spMissingMsg i).data) := by
  intro ps hsafe
  refine ⟨?_, ?_, ?_, ?_⟩
  · have h := validateRules_eq ps 0 [] []
      (fun x hx => absurd hx (List.not_mem_nil x)) hsafe
    simpa [validate_patterns, specErrors] using h
  · intro i col fp
    refine ⟨⟨"Pattern ".data,
        (", Column \x27" ++ col ++
          "\x27: Invalid regular expression \x27" ++ fp ++ "\x27").data, ?_⟩,
      ⟨("Pattern " ++ toString (i + 1) ++ ", Column \x27").data,
        ("\x27: Invalid regular expression \x27" ++ fp ++ "\x27").data, ?_⟩,
      ⟨("Pattern " ++ toString (i + 1) ++ ", Column \x27" ++ col ++
          "\x27: Invalid regular expression \x27").data,
        "\x27".data, ?_⟩⟩ <;>
      simp [invalidRegexMsg, data_append, List.append_assoc]
  · intro i
    refine ⟨"Pattern ".data,
      ": Each pattern must have \x27column\x27 and \x27patterns\x27 fields.".data, ?_⟩
    simp [ruleMissingMsg, data_append, List.append_assoc]
  · intro i
    refine ⟨"Pattern ".data,
      ": Each column pattern must have \x27find\x27, \x27replace\x27, and \x27type\x27 fields.".data,
      ?_⟩
    simp [spMissingMsg, data_append, List.append_assoc]

/-- C5 witness: a rule missing `replace` on a regex sub-pattern whose
find string compiles, so the proviso holds and both errors are
collected. -/
theorem claim_C5_witness :
    validate_patterns
        [⟨none, some [⟨some (.strs ["a"]), none, some "regex"⟩]⟩] =
      some (specErrors
        [⟨none, some [⟨some (.strs ["a"]), none, some "regex"⟩]⟩]) :=
  (claim_C5 [⟨none, some [⟨some (.strs ["a"]), none, some "regex"⟩]⟩]
    (by decide)).1

/-- C6: a find pattern that fails to compile is skipped in isolation: the
regex matcher's result on a find list containing an uncompilable entry
equals its result on the same list with that entry removed, the valid
entries being applied in their original order. -/
theorem claim_C6 : ∀ (bad : String), compile bad = none →
    ∀ (col : Column) (rep : String) (xs ys : List String),
      apply_regex_pattern col (.strs (xs ++ bad :: ys)) rep =
        apply_regex_pattern col (.strs (xs ++ ys)) rep := by
  intro bad h col rep xs ys
  exact go_skip rep bad h ys xs col

/-- C6 witness: an unbalanced parenthesis among two valid patterns. -/
theorem claim_C6_witness :
    compile "(" = none ∧
    apply_regex_pattern ["abc"] (.strs (["(a)"] ++ "(" :: ["(b)"]))
        "[{text}]" =
      apply_regex_pattern ["abc"] (.strs (["(a)"] ++ ["(b)"])) "[{text}]" :=
  ⟨by decide, claim_C6 "(" (by decide) ["abc"] "[{text}]" ["(a)"] ["(b)"]⟩

/-- C7: a rule naming a column absent from the table is skipped entirely,
leaving the table unchanged and the remaining rules still applied (first
conjunct); a sub-pattern with complete fields but an unrecognized type
leaves the column unchanged with no error (second conjunct); sub-patterns
are applied in order, each reading the column produced by the previous
one (third conjunct). -/
theorem claim_C7 :
    (∀ (df : Table) (r : Rule) (rs : List Rule) (c : String)
        (sps : List SubPattern),
      r.column = some c → r.patterns = some sps → getCol df c = none →
      replace_with_patterns df (r :: rs) = replace_with_patterns df rs) ∧
    (∀ (col : Column) (sp : SubPattern) (f : FindVal) (rep t : String),
      sp.find = some f → sp.replace = some rep → sp.type = some t →
      t ≠ "substitution" → t ≠ "wildcard" → t ≠ "regex" →
      applyOneSubPattern col sp = some col) ∧
    (∀ (col : Column) (sp : SubPattern) (sps : List SubPattern),
      applyPats col (sp :: sps) =
        (applyOneSubPattern col sp).bind (fun c2 => applyPats c2 sps)) := by
  refine ⟨?_, ?_, fun col sp sps => rfl⟩
  · intro df r rs c sps hc hp hg
    simp [replace_with_patterns, hc, hp, hg]
  · intro col sp f rep t hf hr ht h1 h2 h3
    simp [applyOneSubPattern, hf, hr, ht, h1, h2, h3]

/-- C7 witness: a rule naming the absent column `b`, and a sub-pattern of
type `frobnicate`. -/
theorem claim_C7_witness :
    (replace_with_patterns ⟨[("a", ["x"])]⟩ [⟨some "b", some []⟩] =
      replace_with_patterns ⟨[("a", ["x"])]⟩ []) ∧
    applyOneSubPattern ["x"]
      ⟨some (.strs ["x"]), some "r", some "frobnicate"⟩ = some ["x"] :=
  ⟨claim_C7.1 ⟨[("a", ["x"])]⟩ ⟨some "b", some []⟩ [] "b" [] rfl rfl
      (by decide),
   claim_C7.2.1 ["x"] ⟨some (.strs ["x"]), some "r", some "frobnicate"⟩
     (.strs ["x"]) "r" "frobnicate" rfl rfl rfl (by decide) (by decide)
     (by decide)⟩

/-- C8: applying the empty rule set is the identity on every table, and
after any successful application a further pass with the empty rule set
changes nothing. -/
theorem claim_C8 :
    (∀ df : Table, replace_with_patterns df [] = some df) ∧
    (∀ (df : Table) (ps : List Rule) (df' : Table),
      replace_with_patterns df ps = some df' →
      replace_with_patterns df' [] = some df') :=
  ⟨replace_empty_id, fun _ _ df' _ => replace_empty_id df'⟩

/-- C8 witness: the theorem applied after a substitution pass. -/
theorem claim_C8_witness :
    replace_with_patterns ⟨[("a", [""])]⟩ [] = some ⟨[("a", [""])]⟩ :=
  claim_C8.2 ⟨[("a", [" x "])]⟩
    [⟨some "a", some [⟨some (.strs ["x"]), some "", some "substitution"⟩]⟩]
    ⟨[("a", [""])]⟩ (by decide)

/-- C9: a wildcard `find` given as a single string is iterated character
by character after sanitization, so a cell is replaced by the sanitized
replace value exactly when some single character of the sanitized find
string occurs, case-insensitively, somewhere in the cell. -/
theorem claim_C9 : ∀ (s rep : String) (col : Column),
    apply_wildcard_pattern col (.str s) rep =
      some (col.map (fun x =>
        if (sanitizeStr s).data.any
            (fun c => x.data.any (fun d => charMatch true c d))
        then sanitizeStr rep else x)) := by
  intro s rep col
  simp only [apply_wildcard_pattern]
  apply mapM_eq_map
  intro x hx
  have hts : (sanitize_input (FindVal.str s)).toStrings =
      (sanitizeStr s).data.map (fun c => String.mk [c]) := rfl
  have hall : ∀ f ∈ (sanitizeStr s).data.map (fun c => String.mk [c]),
      (compile (starRepl f)).isSome := by
    intro f hf
    obtain ⟨c, hc, rfl⟩ := List.mem_map.mp hf
    have hnp := sanitizeStr_nonpunct s c hc
    have hstar : starRepl (String.mk [c]) = String.mk [c] := by
      apply starRepl_eq_of_no_star
      intro hm
      simp only [List.mem_singleton] at hm
      subst hm
      exact absurd hnp (by decide)
    rw [hstar, compile_singleton c hnp]
    rfl
  rw [hts, anyWildSearch_eq x _ hall]
  have hcond :
      ((sanitizeStr s).data.map (fun c => String.mk [c])).any
          (fun f => wildMatches f x) =
        (sanitizeStr s).data.any
          (fun c => x.data.any (fun d => charMatch true c d)) := by
    rw [any_of_map]
    apply any_congr
    intro c hc
    exact wildMatches_singleton c x (sanitizeStr_nonpunct s c hc)
  rw [hcond]
  rfl

/-- C10: when the table loads and the rule document parses and validates
to an empty rule sequence, `main` returns the failure sentinel
`(None, None)` rather than the unchanged table, the same value it returns
when the rule document fails to load. -/
theorem claim_C10 : ∀ d d' : Table,
    main (some d) (some []) = some (none, none) ∧
    main (some d') none = some (none, none) :=
  fun _ _ => ⟨rfl, rfl⟩

end Normalize

